import Mathlib

/-!
Verification of the weekend-chart relay server against its specification.

The development shallowly embeds the relay hub (`server/models/db.go`, relay
part), the conversation store (`server/claude/conversation.go`), the tool
translator (`server/claude/tools.go`) and the chat orchestration loop
(`server/handlers/websocket.go`).  Go strings are modelled as `List Char`,
Go maps as association lists, buffered capacity-one channels as `Option`
slots, and wall-clock time as an explicit natural-number parameter
(nanoseconds, matching `time.Now().UnixNano()`).
-/

namespace WeekendChart

/-- Go strings, modelled as lists of characters (byte-level prefix tests in
the source become list prefix tests here). -/
abbrev Str := List Char

/-- Association-list lookup, modelling a Go map read (`m[k]`, with the
comma-ok form distinguishing absence). -/
def lookupA {κ α : Type} [DecidableEq κ] : List (κ × α) → κ → Option α
  | [], _ => none
  | (k', v) :: rest, k => if k' = k then some v else lookupA rest k

/-- Association-list update, modelling a Go map assignment (`m[k] = v`). -/
def setAssoc {κ α : Type} [DecidableEq κ] : List (κ × α) → κ → α → List (κ × α)
  | [], k, v => [(k, v)]
  | (k', v') :: rest, k, v =>
    if k' = k then (k, v) :: rest else (k', v') :: setAssoc rest k v

/-- Association-list deletion, modelling Go `delete(m, k)`. -/
def delAssoc {κ α : Type} [DecidableEq κ] : List (κ × α) → κ → List (κ × α)
  | [], _ => []
  | (k', v) :: rest, k =>
    if k' = k then delAssoc rest k else (k', v) :: delAssoc rest k

/-- Byte-level prefix test, modelling the Go expression
`len(reqID) >= len(p) && reqID[:len(p)] == p` from `UpdateScreenshotCache`. -/
def isPrefixL : Str → Str → Bool
  | [], _ => true
  | _ :: _, [] => false
  | a :: as, b :: bs => a = b && isPrefixL as bs

/-- Decimal digit to its ASCII character, as produced by Go `fmt.Sprintf("%d", _)`. -/
def digitChar (d : Nat) : Char := Char.ofNat (48 + d)

/-- Fuel-bounded digit expansion, most significant digit first (the fuel is
only a termination device: with fuel at least `n` it computes the full
decimal expansion of `n`). -/
def natCharsAux : Nat → Nat → Str
  | 0, _ => []
  | fuel + 1, n =>
    if n = 0 then [] else natCharsAux fuel (n / 10) ++ [digitChar (n % 10)]

/-- Decimal representation of a natural number (Go `fmt.Sprintf("%d", n)`),
most significant digit first. -/
def natChars (n : Nat) : Str :=
  if n = 0 then ['0'] else natCharsAux n n

/-! ## Relay hub data model (`server/models/db.go`, `package relay`) -/

/-- `ScreenshotCache` entry: latest screenshot payload and its timestamp. -/
structure ScreenshotEntry where
  data : Str
  updatedAt : Nat
deriving DecidableEq, Repr

/-- `AgentConn`: the hub-visible part of an agent connection — owning user id
and the buffered outbound queue (`Send chan []byte`, capacity 256). -/
structure AgentConnM where
  userID : Int
  send : List Str
deriving DecidableEq, Repr

/-- The relay `Hub` state: agent registry, user connection queues keyed by
user id, viewing assignments, screenshot cache, and the pending
screenshot-request table mapping request ids to capacity-one response
channels (a `none` slot is an empty channel). -/
structure HubState where
  agents : List (Str × AgentConnM)
  users : List (Int × List (List Str))
  userViewingAgent : List (Int × Str)
  screenshotCache : List (Str × ScreenshotEntry)
  screenshotRequests : List (Str × Option Str)
deriving DecidableEq, Repr

/-- Outbound queue capacity (`make(chan []byte, 256)`). -/
def sendQueueCap : Nat := 256

/-- `IsAgentOnline`: whether an agent connection is registered. -/
def IsAgentOnline (h : HubState) (token : Str) : Bool :=
  (lookupA h.agents token).isSome

/-- Non-blocking send on a buffered queue (`select { case ch <- msg: ...
default: ... }`): enqueue if there is room, otherwise drop. -/
def enqueueNB (q : List Str) (msg : Str) : List Str × Bool :=
  if q.length < sendQueueCap then (q ++ [msg], true) else (q, false)

/-- `SendToAgent`: look up the live agent connection and enqueue
non-blocking; false if the agent is absent or its queue is full. -/
def SendToAgent (h : HubState) (token msg : Str) : HubState × Bool :=
  match lookupA h.agents token with
  | some ac =>
    let (q, ok) := enqueueNB ac.send msg
    if ok then
      ({ h with agents := setAssoc h.agents token { ac with send := q } }, true)
    else (h, false)
  | none => (h, false)

/-- Non-blocking delivery of one message to every connection queue of a user
(the loop body of `SendToUser` / `BroadcastToAgentUsers`). -/
def deliverToConns (conns : List (List Str)) (msg : Str) : List (List Str) :=
  conns.map (fun q => (enqueueNB q msg).1)

/-- `BroadcastToAgentUsers`: deliver a message to all connections of the user
owning this agent, but only when that user is currently viewing this agent. -/
def BroadcastToAgentUsers (h : HubState) (agentToken msg : Str) : HubState :=
  match lookupA h.agents agentToken with
  | some ac =>
    if ac.userID > 0 then
      if (lookupA h.userViewingAgent ac.userID).getD [] = agentToken then
        match lookupA h.users ac.userID with
        | some conns =>
          { h with users := setAssoc h.users ac.userID (deliverToConns conns msg) }
        | none => h
      else h
    else h
  | none => h

/-- Non-blocking send into a capacity-one response channel: fill an empty
slot, drop into a full one. -/
def chanSendNB (ch : Option Str) (d : Str) : Option Str :=
  match ch with
  | none => some d
  | some x => some x

/-- `UpdateScreenshotCache`: overwrite the cached screenshot, then deliver
the payload (non-blocking) to every pending request whose id starts with
`agentToken ++ ":"` — the doorbell for synchronous waiters. -/
def UpdateScreenshotCache (h : HubState) (agentToken data : Str) (now : Nat) : HubState :=
  let pfx := agentToken ++ [':']
  { h with
    screenshotCache := setAssoc h.screenshotCache agentToken ⟨data, now⟩
    screenshotRequests := h.screenshotRequests.map (fun p =>
      if isPrefixL pfx p.1 then (p.1, chanSendNB p.2 data) else p) }

/-- `GetCachedScreenshot`: the cached payload, its timestamp and a found
flag (zero values when absent, as in Go). -/
def GetCachedScreenshot (h : HubState) (token : Str) : Str × Nat × Bool :=
  match lookupA h.screenshotCache token with
  | some c => (c.data, c.updatedAt, true)
  | none => ([], 0, false)

/-- Freshness threshold for the cache short-circuit (`3*time.Second`, in
nanoseconds). -/
def freshThresholdNs : Nat := 3000000000

/-- Request-id format `fmt.Sprintf("%s:%d", agentToken, time.Now().UnixNano())`. -/
def reqId (token : Str) (nanots : Nat) : Str :=
  token ++ ':' :: natChars nanots

/-- Registration phase of `RequestScreenshotSync`: install a fresh empty
response channel under the generated request id. -/
def registerRequest (h : HubState) (token : Str) (nanots : Nat) : HubState :=
  { h with screenshotRequests := setAssoc h.screenshotRequests (reqId token nanots) none }

/-- Cleanup phase of `RequestScreenshotSync` (the deferred
`delete(h.screenshotRequests, reqID)`). -/
def deleteRequest (h : HubState) (r : Str) : HubState :=
  { h with screenshotRequests := delAssoc h.screenshotRequests r }

/-- Result discriminator of `RequestScreenshotSync`: payload, the
"agent not connected" error, or the "screenshot request timed out" error. -/
inductive SyncOutcome where
  | ok (data : Str)
  | errNotConnected
  | errTimeout
deriving DecidableEq, Repr

/-- Observable effect of one `RequestScreenshotSync` call: its return value,
the hub state when it returns, and whether the `request_screenshot` send to
the agent was attempted / delivered. -/
structure SyncResult where
  outcome : SyncOutcome
  state : HubState
  sendAttempted : Bool
  sendDelivered : Bool
deriving DecidableEq, Repr

/-- Wire message sent to the agent by `RequestScreenshotSync`
(`json.Marshal(map[string]string{"type": "request_screenshot"})`). -/
def requestScreenshotMsg : Str :=
  ("\x7b\"type\":\"request_screenshot\"\x7d" : String).data

/-- `RequestScreenshotSync`: return the cache if it is younger than 3
seconds; otherwise register a pending request, send `request_screenshot` to
the agent (failing fast when it is not connected), and wait.  Concurrent
activity during the timeout-bounded wait is an explicit state transformer
`during`; the wait succeeds exactly when the response channel is filled by
then, and on timeout the call falls back to whatever is cached.  The pending
entry is deleted on every exit path. -/
def RequestScreenshotSync (h : HubState) (token : Str) (now nanots : Nat)
    (during : HubState → HubState) : SyncResult :=
  let g := GetCachedScreenshot h token
  if g.2.2 && decide (now - g.2.1 < freshThresholdNs) then
    ⟨.ok g.1, h, false, false⟩
  else
    let rid := reqId token nanots
    let h1 := registerRequest h token nanots
    let s := SendToAgent h1 token requestScreenshotMsg
    if !s.2 then
      ⟨.errNotConnected, deleteRequest s.1 rid, true, false⟩
    else
      let h3 := during s.1
      match lookupA h3.screenshotRequests rid with
      | some (some d) => ⟨.ok d, deleteRequest h3 rid, true, true⟩
      | _ =>
        let c := GetCachedScreenshot h3 token
        if c.2.2 then ⟨.ok c.1, deleteRequest h3 rid, true, true⟩
        else ⟨.errTimeout, deleteRequest h3 rid, true, true⟩

/-- The hub state at the moment the timeout-bounded wait of
`RequestScreenshotSync` is decided: registration, then the send to the
agent, then the concurrent activity `during` the wait. -/
def syncWaitState (h : HubState) (token : Str) (nanots : Nat)
    (during : HubState → HubState) : HubState :=
  during (SendToAgent (registerRequest h token nanots) token requestScreenshotMsg).1

/-! ## Conversation data model (`server/claude/client.go` types,
`server/claude/conversation.go` operations) -/

/-- `ImageSource`: source of an image content block. -/
structure ImageSource where
  type : String
  mediaType : String
  data : String
deriving DecidableEq, Repr

/-- `ContentBlock`: one content block of a conversation message; only the
`Type` field ("text", "image", "tool_use", "tool_result") drives the
conversation-maintenance logic. -/
structure ContentBlock where
  type : String
  text : String
  source : Option ImageSource
  id : String
  name : String
  input : String
  toolUseID : String
  content : String
  isError : Bool
deriving DecidableEq, Repr

/-- A content block carrying only a type, all other fields at their zero
values (how the maintenance code distinguishes blocks). -/
def mkBlock (t : String) : ContentBlock :=
  ⟨t, "", none, "", "", "", "", "", false⟩

/-- `ConversationMessage`: a role-tagged message with content blocks. -/
structure ConversationMessage where
  role : String
  content : List ContentBlock
deriving DecidableEq, Repr

/-- The loop `for _, block := range msg.Content { if block.Type == "tool_use" ... }`. -/
def hasToolUse (m : ConversationMessage) : Bool :=
  m.content.any (fun b => b.type == "tool_use")

/-- The loop `for _, block := range msg.Content { if block.Type == "tool_result" ... }`. -/
def hasToolResult (m : ConversationMessage) : Bool :=
  m.content.any (fun b => b.type == "tool_result")

/-- The boundary-adjustment loop of `TrimToLastN`: starting from
`start = len - n`, walk the cut point backwards while the first retained
message carries a `tool_result` (pull in the preceding message) or the
message before the cut carries a `tool_use` not answered at the cut
(pull it in too); stop otherwise.  Out-of-range positions end the loop,
mirroring the `start < len(c.Messages)` guard. -/
def adjustStart (msgs : List ConversationMessage) : Nat → Nat
  | 0 => 0
  | s + 1 =>
    match msgs[s + 1]?, msgs[s]? with
    | some msg, some prevMsg =>
      if hasToolResult msg then adjustStart msgs s
      else if hasToolUse prevMsg then adjustStart msgs s
      else s + 1
    | _, _ => s + 1

/-- `TrimToLastN` (`src/unnamed/part_008`): keep only the last `n` messages,
moving the cut point backwards so that tool_use/tool_result pairs are not
broken at the boundary. -/
def TrimToLastN (n : Nat) (msgs : List ConversationMessage) : List ConversationMessage :=
  if n ≥ msgs.length then msgs
  else msgs.drop (adjustStart msgs (msgs.length - n))

/-- Recursive core of `ValidateAndClean`; `last` is the message most
recently appended to `result` (`result[len(result)-1]`), `none` while
`result` is empty. -/
def vacGo (last : Option ConversationMessage) :
    List ConversationMessage → List ConversationMessage
  | [] => []
  | msg :: rest =>
    if hasToolUse msg then
      match rest with
      | next :: _ =>
        if hasToolResult next then msg :: vacGo (some msg) rest
        else vacGo last rest
      | [] => []
    else if hasToolResult msg then
      match last with
      | some prev => if hasToolUse prev then msg :: vacGo (some msg) rest else vacGo last rest
      | none => vacGo last rest
    else msg :: vacGo (some msg) rest

/-- `ValidateAndClean` (`src/unnamed/part_008`): drop every `tool_use`
message not immediately followed by a `tool_result` message, and every
`tool_result` message whose predecessor in the result does not carry a
`tool_use`. -/
def ValidateAndClean (messages : List ConversationMessage) : List ConversationMessage :=
  vacGo none messages

/-- The pair invariant stated by the specification: no retained message with
a `tool_use` block lacks an immediately following retained message with the
`tool_result` block, and no retained message with a `tool_result` block
lacks an immediately preceding retained message with the `tool_use` block. -/
def toolPairClean (msgs : List ConversationMessage) : Prop :=
  ∀ i, i < msgs.length →
    (hasToolUse (msgs.getD i ⟨"", []⟩) = true →
      i + 1 < msgs.length ∧ hasToolResult (msgs.getD (i + 1) ⟨"", []⟩) = true) ∧
    (hasToolResult (msgs.getD i ⟨"", []⟩) = true →
      0 < i ∧ hasToolUse (msgs.getD (i - 1) ⟨"", []⟩) = true)

instance (msgs : List ConversationMessage) : Decidable (toolPairClean msgs) := by
  unfold toolPairClean; infer_instance

/-- No message carries both a `tool_use` and a `tool_result` block (true of
every message the orchestration loop constructs: assistant messages carry
`tool_use`, the separate tool-result user message carries `tool_result`). -/
def noMixedMessages (msgs : List ConversationMessage) : Prop :=
  ∀ m ∈ msgs, ¬(hasToolUse m = true ∧ hasToolResult m = true)

instance (msgs : List ConversationMessage) : Decidable (noMixedMessages msgs) := by
  unfold noMixedMessages; infer_instance

/-! ## Tool translator (`server/claude/tools.go`) -/

/-- `BrowserAction`: the flat wire action sent to the agent; absent fields
keep their zero values. -/
structure BrowserAction where
  type : String
  description : String
  x : Int
  y : Int
  value : String
  key : String
  url : String
  direction : String
  amount : Int
deriving DecidableEq, Repr

/-- A `BrowserAction` with zero values everywhere, the base of the literal
struct expressions in `ExecuteTool`. -/
def zeroAction : BrowserAction :=
  ⟨"", "", 0, 0, "", "", "", "", 0⟩

/-- The `keyNames` map literal of the `type_text` branch of `ExecuteTool`
(exact strings whose value is `true`). -/
def keyNames : List String :=
  ["Tab", "tab", "TAB",
   "Enter", "enter", "ENTER",
   "Backspace", "backspace", "BACKSPACE",
   "Escape", "escape", "ESC", "esc",
   "Delete", "delete", "DEL", "del",
   "ArrowUp", "ArrowDown", "ArrowLeft", "ArrowRight"]

/-- The action constructed by the `type_text` branch of `ExecuteTool`: a
`key` action when the text is a member of the `keyNames` map, otherwise an
`input` action carrying the text literally. -/
def typeTextAction (text : String) : BrowserAction :=
  if keyNames.contains text then
    { zeroAction with type := "key", key := text }
  else
    { zeroAction with type := "input", value := text }

/-- Modelled from the spec sentence of the claim (not from the source): the
text argument "matches one of the fixed key names Tab, Enter, Backspace,
Escape, Delete, or the arrow keys, compared case-insensitively"
(case-insensitive comparison realised by lowercasing every character). -/
def specKeyMatch (text : String) : Bool :=
  (["tab", "enter", "backspace", "escape", "delete",
    "arrowup", "arrowdown", "arrowleft", "arrowright"].map String.data).contains
    (text.data.map Char.toLower)

/-! ## Chat orchestration loop (`server/handlers/websocket.go`,
`handleChatMessage`) -/

/-- One LLM chat response, reduced to what drives the loop: the streamed
text and the returned tool calls. -/
structure ChatResp where
  textContent : String
  toolCalls : List String
deriving DecidableEq, Repr

/-- How one `handleChatMessage` call ended: the assistant finished without
tool calls, the iteration cap was reached, the LLM call failed, or tool
execution failed. -/
inductive LoopExit where
  | done
  | capReached
  | llmError
  | toolError
deriving DecidableEq, Repr

/-- Observable outcome of the orchestration loop: how many LLM calls were
made, whether an error chat response was sent to the user
(`sendChatError`), and how the loop ended. -/
structure LoopOutcome where
  chatCalls : Nat
  errorSent : Bool
  exit : LoopExit
deriving DecidableEq, Repr

/-- The `for i := 0; i < maxIterations; i++` loop of `handleChatMessage`:
each iteration calls the LLM (`respond k` is the k-th call, `Except.error`
an API failure), returns on an error after sending an error response,
breaks when the response carries no tool calls, returns on tool-execution
failure (`execFail`), and otherwise continues; running out of iterations
is the silent cap exit. -/
def chatLoopGo (respond : Nat → Except String ChatResp) (execFail : Nat → Bool) :
    Nat → Nat → LoopOutcome
  | count, 0 => ⟨count, false, .capReached⟩
  | count, r + 1 =>
    match respond count with
    | .error _ => ⟨count + 1, true, .llmError⟩
    | .ok resp =>
      if resp.toolCalls.isEmpty then ⟨count + 1, false, .done⟩
      else if execFail count then ⟨count + 1, true, .toolError⟩
      else chatLoopGo respond execFail (count + 1) r

/-- `maxIterations := 10` in `handleChatMessage`. -/
def maxIterations : Nat := 10

/-- The orchestration loop of one chat message, started with the full
iteration budget. -/
def handleChatMessageLoop (respond : Nat → Except String ChatResp)
    (execFail : Nat → Bool) : LoopOutcome :=
  chatLoopGo respond execFail 0 maxIterations

/-! ## Proof-side auxiliary definitions and sample data -/

/-- Whether the most recently appended message carries a `tool_use` block
(`false` while the result is still empty). -/
def lastHasUse : Option ConversationMessage → Bool
  | some p => hasToolUse p
  | none => false

/-- Adjacency invariant maintained by `vacGo` relative to the previously
appended message: every `tool_use` message is immediately followed by a
`tool_result` message, and every `tool_result` message follows a `tool_use`
message (the one before it, or `last` at the front). -/
def vcleanRel : Option ConversationMessage → List ConversationMessage → Bool
  | _, [] => true
  | last, m :: rest =>
    if hasToolUse m then
      match rest with
      | r :: _ => hasToolResult r && vcleanRel (some m) rest
      | [] => false
    else if hasToolResult m then
      lastHasUse last && vcleanRel (some m) rest
    else vcleanRel (some m) rest

/-- Sample assistant message carrying a `tool_use` block. -/
def msgToolUse : ConversationMessage := ⟨"assistant", [mkBlock "tool_use"]⟩

/-- Sample user message carrying a `tool_result` block. -/
def msgToolResult : ConversationMessage := ⟨"user", [mkBlock "tool_result"]⟩

/-- Sample plain text message. -/
def msgPlain : ConversationMessage := ⟨"user", [mkBlock "text"]⟩

/-- Sample message carrying both a `tool_use` and a `tool_result` block. -/
def msgMixed : ConversationMessage := ⟨"assistant", [mkBlock "tool_use", mkBlock "tool_result"]⟩

/-- Sample hub: agent `"a"` online (owner user 1, empty queue), nothing else. -/
def hubAgentA : HubState := ⟨[(['a'], ⟨1, []⟩)], [], [], [], []⟩

/-- Sample hub: agent `"a"` online and two pending screenshot requests for
it, with nanosecond timestamps 1 and 2, both channels still empty — the
state after two near-simultaneous `RequestScreenshotSync("a", _)` calls have
both passed their registration phase. -/
def hubTwoPending : HubState :=
  ⟨[(['a'], ⟨1, []⟩)], [], [], [], [(reqId ['a'] 1, none), (reqId ['a'] 2, none)]⟩

/-- Sample hub: one pending screenshot request registered by
`RequestScreenshotSync("a:b", _)` (timestamp 5), channel still empty. -/
def hubPendingColonToken : HubState :=
  ⟨[], [], [], [], [(reqId ['a', ':', 'b'] 5, none)]⟩

/-- Sample hub: no agent connected, but a cached screenshot `"P"` for token
`"a"` taken at time 0. -/
def hubOfflineFreshCache : HubState :=
  ⟨[], [], [], [(['a'], ⟨['P'], 0⟩)], []⟩

/-- Sample hub: agent `"a"` online owned by user 1, user 1 has one live
connection with an empty queue and is viewing `"a"`. -/
def hubViewer : HubState :=
  ⟨[(['a'], ⟨1, []⟩)], [(1, [[]])], [(1, ['a'])], [], []⟩

/-- Sample hub: like `hubViewer` but user 1 is viewing a different agent `"b"`. -/
def hubNonViewer : HubState :=
  ⟨[(['a'], ⟨1, []⟩)], [(1, [[]])], [(1, ['b'])], [], []⟩

/-! ## Association list, prefix and decimal-representation lemmas -/

theorem lookupA_setAssoc_self {κ α : Type} [DecidableEq κ] (l : List (κ × α)) (k : κ) (v : α) :
    lookupA (setAssoc l k v) k = some v := by
  induction l with
  | nil => simp [setAssoc, lookupA]
  | cons p rest ih =>
    obtain ⟨k', v'⟩ := p
    by_cases h : k' = k
    · simp [setAssoc, h, lookupA]
    · simp [setAssoc, h, lookupA, ih]

theorem lookupA_setAssoc_ne {κ α : Type} [DecidableEq κ] (l : List (κ × α)) (k k' : κ) (v : α)
    (h : k' ≠ k) : lookupA (setAssoc l k v) k' = lookupA l k' := by
  have h' : ¬(k = k') := fun hh => h (Eq.symm hh)
  induction l with
  | nil => simp [setAssoc, lookupA, h']
  | cons p rest ih =>
    obtain ⟨k'', v''⟩ := p
    by_cases hk : k'' = k
    · subst hk
      simp [setAssoc, lookupA, h']
    · simp only [setAssoc, if_neg hk, lookupA]
      by_cases hk2 : k'' = k' <;> simp [hk2, ih]

theorem lookupA_delAssoc_self {κ α : Type} [DecidableEq κ] (l : List (κ × α)) (k : κ) :
    lookupA (delAssoc l k) k = none := by
  induction l with
  | nil => simp [delAssoc, lookupA]
  | cons p rest ih =>
    obtain ⟨k', v'⟩ := p
    by_cases h : k' = k
    · simpa [delAssoc, h] using ih
    · simpa [delAssoc, h, lookupA] using ih

theorem delAssoc_setAssoc {κ α : Type} [DecidableEq κ] (l : List (κ × α)) (k : κ) (v : α)
    (h : lookupA l k = none) : delAssoc (setAssoc l k v) k = l := by
  induction l with
  | nil => simp [setAssoc, delAssoc]
  | cons p rest ih =>
    obtain ⟨k', v'⟩ := p
    by_cases hk : k' = k
    · simp [lookupA, hk] at h
    · simp only [lookupA, if_neg hk] at h
      simp [setAssoc, delAssoc, hk, ih h]

theorem lookupA_update_requests (reqs : List (Str × Option Str)) (pfx d k : Str) :
    lookupA (reqs.map fun p => if isPrefixL pfx p.1 then (p.1, chanSendNB p.2 d) else p) k =
      (lookupA reqs k).map (fun ch => if isPrefixL pfx k then chanSendNB ch d else ch) := by
  induction reqs with
  | nil => simp [lookupA]
  | cons p rest ih =>
    obtain ⟨k', ch⟩ := p
    simp only [List.map_cons]
    by_cases hp : isPrefixL pfx k' = true
    · rw [if_pos hp]
      by_cases hk : k' = k
      · subst hk; simp [lookupA, hp]
      · simp [lookupA, hk, ih]
    · rw [if_neg hp]
      by_cases hk : k' = k
      · subst hk; simp [lookupA, hp]
      · simp [lookupA, hk, ih]

theorem isPrefixL_append (t r : Str) : isPrefixL t (t ++ r) = true := by
  induction t with
  | nil => simp [isPrefixL]
  | cons a as ih => simp [isPrefixL, ih]

theorem isPrefixL_colon_free {t1 t2 : Str} (h1 : ':' ∉ t1) (h2 : ':' ∉ t2) (hne : t1 ≠ t2)
    (r : Str) : isPrefixL (t1 ++ [':']) (t2 ++ ':' :: r) = false := by
  induction t1 generalizing t2 with
  | nil =>
    cases t2 with
    | nil => exact absurd rfl hne
    | cons c t2' =>
      have hc : c ≠ ':' := fun hh => h2 (hh ▸ List.mem_cons_self c t2')
      have hc' : ¬(':' = c) := fun hh => hc (Eq.symm hh)
      simp [isPrefixL, hc']
  | cons a t1' ih =>
    have ha : a ≠ ':' := fun hh => h1 (hh ▸ List.mem_cons_self a t1')
    cases t2 with
    | nil => simp [isPrefixL, ha]
    | cons c t2' =>
      by_cases hac : a = c
      · subst hac
        have h1' : ':' ∉ t1' := fun hh => h1 (List.mem_cons_of_mem a hh)
        have h2' : ':' ∉ t2' := fun hh => h2 (List.mem_cons_of_mem a hh)
        have hne' : t1' ≠ t2' := fun hh => hne (hh ▸ rfl)
        simp [isPrefixL, ih h1' h2' hne']
      · simp [isPrefixL, hac]

theorem digitChar_inj_aux : ∀ d1, d1 < 10 → ∀ d2, d2 < 10 → digitChar d1 = digitChar d2 → d1 = d2 := by
  decide

theorem map_digitChar_inj (l1 : List Nat) (h1 : ∀ d ∈ l1, d < 10) :
    ∀ l2, (∀ d ∈ l2, d < 10) → l1.map digitChar = l2.map digitChar → l1 = l2 := by
  induction l1 with
  | nil => intro l2 _ h; cases l2 <;> simp_all
  | cons a as ih =>
    intro l2 h2 h
    cases l2 with
    | nil => simp at h
    | cons b bs =>
      simp only [List.map_cons, List.cons.injEq] at h
      have ha := h1 a (List.mem_cons_self a as)
      have hb := h2 b (List.mem_cons_self b bs)
      have hab := digitChar_inj_aux a ha b hb h.1
      have htail := ih (fun d hd => h1 d (List.mem_cons_of_mem a hd)) bs
        (fun d hd => h2 d (List.mem_cons_of_mem b hd)) h.2
      rw [hab, htail]

theorem natCharsAux_eq_digits :
    ∀ fuel n, n ≤ fuel → natCharsAux fuel n = (Nat.digits 10 n).reverse.map digitChar := by
  intro fuel
  induction fuel with
  | zero =>
    intro n hn
    interval_cases n
    simp [natCharsAux]
  | succ fuel ih =>
    intro n hn
    by_cases h0 : n = 0
    · simp [h0, natCharsAux]
    · have hpos : 0 < n := Nat.pos_of_ne_zero h0
      have hdiv : n / 10 ≤ fuel := by
        have := Nat.div_lt_self hpos (by norm_num : (1 : Nat) < 10)
        omega
      rw [natCharsAux, if_neg h0, ih (n / 10) hdiv,
        Nat.digits_def' (by norm_num : (1 : Nat) < 10) hpos]
      simp

theorem natChars_eq_digits (n : Nat) :
    natChars n = if n = 0 then ['0'] else (Nat.digits 10 n).reverse.map digitChar := by
  unfold natChars
  by_cases h0 : n = 0
  · simp [h0]
  · simp [h0, natCharsAux_eq_digits n n (le_refl n)]

theorem natChars_inj {m n : Nat} (hne : natChars m = natChars n) : m = n := by
  have h : (if m = 0 then ['0'] else (Nat.digits 10 m).reverse.map digitChar) =
      (if n = 0 then ['0'] else (Nat.digits 10 n).reverse.map digitChar) := by
    rw [← natChars_eq_digits, ← natChars_eq_digits]
    exact hne
  have hdig : ∀ k : Nat, ∀ d ∈ Nat.digits 10 k, d < 10 := by
    intro k d hd
    exact Nat.digits_lt_base (by norm_num) hd
  have hsingle : ∀ k : Nat, k ≠ 0 →
      (Nat.digits 10 k).reverse.map digitChar = ['0'] → False := by
    intro k hk hrev
    have hlen : (Nat.digits 10 k).reverse.length = 1 := by
      have := congrArg List.length hrev
      simpa using this
    obtain ⟨d, hd⟩ := List.length_eq_one.mp hlen
    have hdigs : Nat.digits 10 k = [d] := by
      have := congrArg List.reverse hd
      simpa using this
    rw [hd] at hrev
    simp only [List.map_cons, List.map_nil, List.cons.injEq] at hrev
    have hd10 : d < 10 := hdig k d (by rw [hdigs]; exact List.mem_cons_self d [])
    have : d = 0 := digitChar_inj_aux d hd10 0 (by norm_num) (by simpa [digitChar] using hrev.1)
    have hk0 : k = Nat.ofDigits 10 (Nat.digits 10 k) := (Nat.ofDigits_digits 10 k).symm
    rw [hdigs, this] at hk0
    simp [Nat.ofDigits] at hk0
    exact hk hk0
  by_cases hm : m = 0 <;> by_cases hn : n = 0
  · rw [hm, hn]
  · rw [if_pos hm, if_neg hn] at h
    exact absurd h.symm (fun hh => hsingle n hn hh)
  · rw [if_neg hm, if_pos hn] at h
    exact absurd h (fun hh => hsingle m hm hh)
  · rw [if_neg hm, if_neg hn] at h
    have hrev := map_digitChar_inj (Nat.digits 10 m).reverse
      (fun d hd => hdig m d (List.mem_reverse.mp hd)) (Nat.digits 10 n).reverse
      (fun d hd => hdig n d (List.mem_reverse.mp hd)) h
    have := List.reverse_injective hrev
    exact Nat.digits.injective 10 this

/-! ## C2: cache freshness short-circuit -/

/-- C2: after `UpdateScreenshotCache(A, P)` at time `T`, any
`RequestScreenshotSync(A, _)` call made before `T + 3` seconds returns `P`
with no error, registers no pending request, leaves the hub state
untouched, and never attempts a `request_screenshot` send to the agent —
regardless of any concurrent activity `during` a wait (none happens). -/
theorem requestSync_cache_freshness
    (h : HubState) (A P : Str) (T now nanots : Nat) (during : HubState → HubState)
    (hfresh : now < T + freshThresholdNs) :
    RequestScreenshotSync (UpdateScreenshotCache h A P T) A now nanots during =
      ⟨.ok P, UpdateScreenshotCache h A P T, false, false⟩ := by
  have hc : GetCachedScreenshot (UpdateScreenshotCache h A P T) A = (P, T, true) := by
    unfold GetCachedScreenshot UpdateScreenshotCache
    simp [lookupA_setAssoc_self]
  have harith : now - T < freshThresholdNs := by
    simp only [freshThresholdNs] at hfresh ⊢
    omega
  unfold RequestScreenshotSync
  rw [hc]
  simp [harith]

/-- C2 witness: a concrete fresh-cache call (update at time 0, request at
time 1 nanosecond) short-circuits to the cached payload. -/
theorem requestSync_cache_freshness_witness :
    (1 : Nat) < 0 + freshThresholdNs ∧
    RequestScreenshotSync (UpdateScreenshotCache hubAgentA ['a'] ['P'] 0) ['a'] 1 7 id =
      ⟨.ok ['P'], UpdateScreenshotCache hubAgentA ['a'] ['P'] 0, false, false⟩ :=
  ⟨by decide, requestSync_cache_freshness hubAgentA ['a'] ['P'] 0 1 7 id (by decide)⟩

/-! ## C3: timeout fallback to stale cache -/

/-- C3: if a `RequestScreenshotSync(A, _)` call takes the slow path (the
freshness guard fails), successfully sends the request to the agent, and
its pending slot is still unfulfilled when the wait is decided (timeout),
then it returns the cached payload for `A` with no error whenever any cache
entry for `A` exists at that moment — however stale — and returns the
explicit timeout error exactly when no cache entry exists at all. -/
theorem requestSync_timeout_fallback
    (h : HubState) (A : Str) (now nanots : Nat) (during : HubState → HubState)
    (hstale : ((GetCachedScreenshot h A).2.2 &&
      decide (now - (GetCachedScreenshot h A).2.1 < freshThresholdNs)) = false)
    (hsent : (SendToAgent (registerRequest h A nanots) A requestScreenshotMsg).2 = true)
    (hunful : ∀ d, lookupA (syncWaitState h A nanots during).screenshotRequests
      (reqId A nanots) ≠ some (some d)) :
    (∀ P Tc, lookupA (syncWaitState h A nanots during).screenshotCache A = some ⟨P, Tc⟩ →
      RequestScreenshotSync h A now nanots during =
        ⟨.ok P, deleteRequest (syncWaitState h A nanots during) (reqId A nanots), true, true⟩) ∧
    (lookupA (syncWaitState h A nanots during).screenshotCache A = none →
      RequestScreenshotSync h A now nanots during =
        ⟨.errTimeout, deleteRequest (syncWaitState h A nanots during) (reqId A nanots), true, true⟩) := by
  simp only [RequestScreenshotSync, syncWaitState] at hunful ⊢
  simp only [hstale, Bool.false_eq_true, if_false, hsent, Bool.not_true, if_false]
  set h3 := during (SendToAgent (registerRequest h A nanots) A requestScreenshotMsg).1 with hh3
  constructor
  · intro P Tc hcache
    have hget : GetCachedScreenshot h3 A = (P, Tc, true) := by
      unfold GetCachedScreenshot
      rw [hcache]
    cases hlook : lookupA h3.screenshotRequests (reqId A nanots) with
    | none => simp [hget]
    | some ch =>
      cases ch with
      | none => simp [hget]
      | some d => exact absurd hlook (hunful d)
  · intro hcache
    have hget : GetCachedScreenshot h3 A = ([], 0, false) := by
      unfold GetCachedScreenshot
      rw [hcache]
    cases hlook : lookupA h3.screenshotRequests (reqId A nanots) with
    | none => simp [hget]
    | some ch =>
      cases ch with
      | none => simp [hget]
      | some d => exact absurd hlook (hunful d)

/-- C3 witness: agent online, empty cache, nothing fulfils the slot
(`during = id`): the concrete call times out with the explicit error. -/
theorem requestSync_timeout_fallback_witness :
    RequestScreenshotSync hubAgentA ['a'] 0 7 id =
      ⟨.errTimeout, deleteRequest (syncWaitState hubAgentA ['a'] 7 id) (reqId ['a'] 7),
        true, true⟩ :=
  (requestSync_timeout_fallback hubAgentA ['a'] 0 7 id (by decide) (by decide)
    (fun d hd => by
      have hval : lookupA (syncWaitState hubAgentA ['a'] 7 id).screenshotRequests
          (reqId ['a'] 7) = some none := by decide
      rw [hval] at hd
      simp at hd)).2 (by decide)

/-! ## C4: not-connected fast failure -/

/-- C4 counterexample: the claim asserts that *every* call for a
non-registered agent fails with the not-connected error, but when the cache
holds an entry younger than 3 seconds the call returns that payload with no
error (agent `"a"` is offline in `hubOfflineFreshCache`, its cache entry is
from time 0, the call happens at time 1). -/
theorem requestSync_not_connected_cex :
    IsAgentOnline hubOfflineFreshCache ['a'] = false ∧
    RequestScreenshotSync hubOfflineFreshCache ['a'] 1 7 id =
      ⟨.ok ['P'], hubOfflineFreshCache, false, false⟩ := by
  decide

/-- C4 amended: when the agent is not registered *and* the freshness
short-circuit does not apply, `RequestScreenshotSync` fails immediately with
the explicit not-connected error whatever happens concurrently (the wait is
never entered), the pending entry created for the call is removed again, and
no cache entry is modified; if the generated request id was not previously
present, the pending table is exactly as before. -/
theorem requestSync_not_connected
    (h : HubState) (A : Str) (now nanots : Nat)
    (hoff : IsAgentOnline h A = false)
    (hstale : ((GetCachedScreenshot h A).2.2 &&
      decide (now - (GetCachedScreenshot h A).2.1 < freshThresholdNs)) = false) :
    (∀ during, RequestScreenshotSync h A now nanots during =
      ⟨.errNotConnected, deleteRequest (registerRequest h A nanots) (reqId A nanots),
        true, false⟩) ∧
    (deleteRequest (registerRequest h A nanots) (reqId A nanots)).screenshotCache =
      h.screenshotCache ∧
    lookupA (deleteRequest (registerRequest h A nanots) (reqId A nanots)).screenshotRequests
      (reqId A nanots) = none ∧
    (lookupA h.screenshotRequests (reqId A nanots) = none →
      (deleteRequest (registerRequest h A nanots) (reqId A nanots)).screenshotRequests =
        h.screenshotRequests) := by
  have hnone : lookupA h.agents A = none := by
    unfold IsAgentOnline at hoff
    cases hl : lookupA h.agents A with
    | none => rfl
    | some ac => rw [hl] at hoff; simp at hoff
  have hsend : SendToAgent (registerRequest h A nanots) A requestScreenshotMsg =
      (registerRequest h A nanots, false) := by
    unfold SendToAgent
    have : lookupA (registerRequest h A nanots).agents A = none := hnone
    rw [this]
  refine ⟨?_, rfl, ?_, ?_⟩
  · intro during
    simp only [RequestScreenshotSync]
    simp only [hstale, Bool.false_eq_true, if_false, hsend, Bool.not_false, if_true]
  · exact lookupA_delAssoc_self _ _
  · intro hfree
    exact delAssoc_setAssoc _ _ _ hfree

/-- C4 witness: offline agent with only a stale cache entry (age over 3
seconds): the concrete call fails with the not-connected error. -/
theorem requestSync_not_connected_witness :
    RequestScreenshotSync hubOfflineFreshCache ['a'] 4000000000 7 id =
      ⟨.errNotConnected,
        deleteRequest (registerRequest hubOfflineFreshCache ['a'] 7) (reqId ['a'] 7),
        true, false⟩ :=
  (requestSync_not_connected hubOfflineFreshCache ['a'] 4000000000 7 (by decide)
    (by decide)).1 id

/-! ## C1: pending-request fulfillment -/

/-- C1 counterexample: two near-simultaneous `RequestScreenshotSync("a", _)`
calls have registered distinct request ids (timestamps 1 and 2, both
channels empty in `hubTwoPending`), and then a *single*
`UpdateScreenshotCache("a", "d")` doorbell fills *both* response slots: the
second request's slot is fulfilled by the first's update, i.e. one update
is cross-delivered to the other request's slot, contrary to the claim. -/
theorem updateCache_cross_delivery_cex :
    reqId ['a'] 1 ≠ reqId ['a'] 2 ∧
    lookupA hubTwoPending.screenshotRequests (reqId ['a'] 1) = some none ∧
    lookupA hubTwoPending.screenshotRequests (reqId ['a'] 2) = some none ∧
    lookupA (UpdateScreenshotCache hubTwoPending ['a'] ['d'] 9).screenshotRequests
      (reqId ['a'] 1) = some (some ['d']) ∧
    lookupA (UpdateScreenshotCache hubTwoPending ['a'] ['d'] 9).screenshotRequests
      (reqId ['a'] 2) = some (some ['d']) := by
  decide

/-- C1 amended: two near-simultaneous `RequestScreenshotSync(A, _)` calls
register independently generated request ids (distinct whenever their
nanosecond timestamps differ), but one `UpdateScreenshotCache(A, _)`
doorbell delivers its payload to *every* pending request with prefix
`A ++ ":"`, so a single update fulfils both slots; each slot holds at most
one payload (a later doorbell with different data is dropped, never
overwriting the first fulfillment), and a request id is gone from the
pending table once its call's cleanup deletes it. -/
theorem updateCache_doorbell_per_token
    (h : HubState) (A d d2 : Str) (ts1 ts2 now now2 : Nat)
    (hne : ts1 ≠ ts2)
    (h1 : lookupA h.screenshotRequests (reqId A ts1) = some none)
    (h2 : lookupA h.screenshotRequests (reqId A ts2) = some none) :
    reqId A ts1 ≠ reqId A ts2 ∧
    lookupA (UpdateScreenshotCache h A d now).screenshotRequests (reqId A ts1) =
      some (some d) ∧
    lookupA (UpdateScreenshotCache h A d now).screenshotRequests (reqId A ts2) =
      some (some d) ∧
    lookupA (UpdateScreenshotCache (UpdateScreenshotCache h A d now) A d2 now2).screenshotRequests
      (reqId A ts1) = some (some d) ∧
    lookupA (UpdateScreenshotCache (UpdateScreenshotCache h A d now) A d2 now2).screenshotRequests
      (reqId A ts2) = some (some d) ∧
    lookupA (deleteRequest (UpdateScreenshotCache h A d now) (reqId A ts1)).screenshotRequests
      (reqId A ts1) = none := by
  have hpfx : ∀ ts : Nat, isPrefixL (A ++ [':']) (reqId A ts) = true := by
    intro ts
    unfold reqId
    rw [List.append_cons A ':' (natChars ts)]
    exact isPrefixL_append (A ++ [':']) (natChars ts)
  have hlook : ∀ ts : Nat, lookupA h.screenshotRequests (reqId A ts) = some none →
      lookupA (UpdateScreenshotCache h A d now).screenshotRequests (reqId A ts) =
        some (some d) := by
    intro ts hl
    show lookupA (h.screenshotRequests.map fun p =>
      if isPrefixL (A ++ [':']) p.1 then (p.1, chanSendNB p.2 d) else p) (reqId A ts) = _
    rw [lookupA_update_requests, hl, hpfx ts]
    rfl
  have hlook2 : ∀ ts : Nat,
      lookupA (UpdateScreenshotCache h A d now).screenshotRequests (reqId A ts) =
        some (some d) →
      lookupA (UpdateScreenshotCache (UpdateScreenshotCache h A d now) A d2 now2).screenshotRequests
        (reqId A ts) = some (some d) := by
    intro ts hl
    show lookupA ((UpdateScreenshotCache h A d now).screenshotRequests.map fun p =>
      if isPrefixL (A ++ [':']) p.1 then (p.1, chanSendNB p.2 d2) else p) (reqId A ts) = _
    rw [lookupA_update_requests, hl, hpfx ts]
    rfl
  refine ⟨?_, hlook ts1 h1, hlook ts2 h2, hlook2 ts1 (hlook ts1 h1),
    hlook2 ts2 (hlook ts2 h2), lookupA_delAssoc_self _ _⟩
  intro heq
  unfold reqId at heq
  have := List.append_cancel_left heq
  simp only [List.cons.injEq, true_and] at this
  exact hne (natChars_inj this)

/-- C1 amended witness: the concrete two-pending-request hub, one update
with payload `"d"`, a second with `"e"`. -/
theorem updateCache_doorbell_per_token_witness :
    lookupA (UpdateScreenshotCache (UpdateScreenshotCache hubTwoPending ['a'] ['d'] 9) ['a']
      ['e'] 10).screenshotRequests (reqId ['a'] 2) = some (some ['d']) :=
  (updateCache_doorbell_per_token hubTwoPending ['a'] ['d'] ['e'] 1 2 9 10 (by decide)
    (by decide) (by decide)).2.2.2.2.1

/-! ## C10: doorbell token isolation -/

/-- C10 counterexample: fulfillment via the token-prefix match is *not*
confined for all possible token strings: an update for token `"a"` fills
the pending slot registered by `RequestScreenshotSync("a:b", _)`, because
`"a:"` is a prefix of the request id `"a:b:5"`. -/
theorem updateCache_token_isolation_cex :
    (['a'] : Str) ≠ ['a', ':', 'b'] ∧
    lookupA hubPendingColonToken.screenshotRequests (reqId ['a', ':', 'b'] 5) = some none ∧
    lookupA (UpdateScreenshotCache hubPendingColonToken ['a'] ['d'] 0).screenshotRequests
      (reqId ['a', ':', 'b'] 5) = some (some ['d']) := by
  decide

/-- C10 amended: for tokens that do not contain `':'` (true of the
generated hex agent tokens), `UpdateScreenshotCache(T1, _)` never touches
the response slot of a pending request registered for a different token
`T2`: its pending-table entry is exactly as before the update. -/
theorem updateCache_token_isolation
    (h : HubState) (T1 T2 d : Str) (now ts : Nat)
    (hc1 : ':' ∉ T1) (hc2 : ':' ∉ T2) (hne : T1 ≠ T2) :
    lookupA (UpdateScreenshotCache h T1 d now).screenshotRequests (reqId T2 ts) =
      lookupA h.screenshotRequests (reqId T2 ts) := by
  show lookupA (h.screenshotRequests.map fun p =>
    if isPrefixL (T1 ++ [':']) p.1 then (p.1, chanSendNB p.2 d) else p) (reqId T2 ts) = _
  rw [lookupA_update_requests]
  unfold reqId
  rw [isPrefixL_colon_free hc1 hc2 hne (natChars ts)]
  cases lookupA h.screenshotRequests (T2 ++ ':' :: natChars ts) <;> rfl

/-- C10 amended witness: an update for token `"a"` leaves the (empty)
pending-table entry for a request id of token `"b"` unchanged. -/
theorem updateCache_token_isolation_witness :
    lookupA (UpdateScreenshotCache hubAgentA ['a'] ['d'] 0).screenshotRequests
      (reqId ['b'] 5) = lookupA hubAgentA.screenshotRequests (reqId ['b'] 5) :=
  updateCache_token_isolation hubAgentA ['a'] ['b'] ['d'] 0 5 (by decide) (by decide)
    (by decide)

/-! ## C5: conversation trimming and tool pairs -/

theorem adjustStart_spec (msgs : List ConversationMessage) :
    ∀ s, adjustStart msgs s = 0 ∨ msgs[adjustStart msgs s]? = none ∨
      (∃ m, msgs[adjustStart msgs s]? = some m ∧ hasToolResult m = false) := by
  intro s
  induction s with
  | zero => exact Or.inl rfl
  | succ s ih =>
    cases hh1 : msgs[s + 1]? with
    | none =>
      right; left
      simp [adjustStart, hh1]
    | some msg =>
      cases hh2 : msgs[s]? with
      | none =>
        have hlen : msgs.length ≤ s := List.getElem?_eq_none_iff.mp hh2
        have : msgs[s + 1]? = none := List.getElem?_eq_none (by omega)
        rw [this] at hh1
        exact absurd hh1 (by simp)
      | some prev =>
        by_cases hres : hasToolResult msg = true
        · have : adjustStart msgs (s + 1) = adjustStart msgs s := by
            simp [adjustStart, hh1, hh2, hres]
          rw [this]; exact ih
        · by_cases huse : hasToolUse prev = true
          · have : adjustStart msgs (s + 1) = adjustStart msgs s := by
              simp [adjustStart, hh1, hh2, hres, huse]
            rw [this]; exact ih
          · have : adjustStart msgs (s + 1) = s + 1 := by
              simp [adjustStart, hh1, hh2, hres, huse]
            rw [this]
            right; right
            exact ⟨msg, hh1, by simpa using hres⟩

theorem toolPairClean_drop (msgs : List ConversationMessage) (r : Nat)
    (hc : toolPairClean msgs)
    (hr : r = 0 ∨ msgs[r]? = none ∨ (∃ m, msgs[r]? = some m ∧ hasToolResult m = false)) :
    toolPairClean (msgs.drop r) := by
  intro i hi
  rw [List.length_drop] at hi
  have hgetD : ∀ j : Nat, (msgs.drop r).getD j ⟨"", []⟩ = msgs.getD (r + j) ⟨"", []⟩ := by
    intro j
    rw [List.getD_eq_getElem?_getD, List.getD_eq_getElem?_getD, List.getElem?_drop]
  have hlen := List.length_drop r msgs
  constructor
  · intro huse
    rw [hgetD i] at huse
    have := (hc (r + i) (by omega)).1 huse
    refine ⟨by omega, ?_⟩
    rw [hgetD (i + 1)]
    have heq : r + (i + 1) = r + i + 1 := by omega
    rw [heq]
    exact this.2
  · intro hres
    rw [hgetD i] at hres
    have hmain := (hc (r + i) (by omega)).2 hres
    by_cases hi0 : i = 0
    · subst hi0
      rcases hr with hr0 | hrn | ⟨m, hm, hmres⟩
      · subst hr0
        simp at hmain
      · have : msgs.length ≤ r := List.getElem?_eq_none_iff.mp hrn
        omega
      · rw [List.getD_eq_getElem?_getD] at hres
        simp only [Nat.add_zero] at hres
        rw [hm] at hres
        simp only [Option.getD_some] at hres
        rw [hres] at hmres
        exact absurd hmres (by simp)
    · refine ⟨by omega, ?_⟩
      rw [hgetD (i - 1)]
      have heq : r + (i - 1) = r + i - 1 := by omega
      rw [heq]
      exact hmain.2

/-- C5 counterexample: the claim quantifies over *every* history, but
`TrimToLastN` only repairs the cut boundary: trimming
`[tool_use, plain, plain]` to the last 2 messages walks the cut back to the
front and retains the whole history, whose leading `tool_use` message is
not followed by any `tool_result` message. -/
theorem trimToLastN_pairs_cex :
    ¬ toolPairClean (TrimToLastN 2 [msgToolUse, msgPlain, msgPlain]) := by
  decide

/-- C5 amended: for every trim target `N` and every history that already
satisfies the tool-pair invariant (every `tool_use` message immediately
followed by a `tool_result` message and every `tool_result` message
immediately preceded by a `tool_use` message — which `ValidateAndClean`
establishes before each LLM call), the retained list after `TrimToLastN N`
still satisfies it: trimming never splits a pair. -/
theorem trimToLastN_preserves_pairs (n : Nat) (msgs : List ConversationMessage)
    (hc : toolPairClean msgs) : toolPairClean (TrimToLastN n msgs) := by
  unfold TrimToLastN
  by_cases hn : n ≥ msgs.length
  · rw [if_pos hn]; exact hc
  · rw [if_neg hn]
    exact toolPairClean_drop msgs _ hc (adjustStart_spec msgs (msgs.length - n))

/-- C5 amended witness: trimming a concrete clean two-message history to
its last message pulls the `tool_use` back in and stays clean. -/
theorem trimToLastN_preserves_pairs_witness :
    toolPairClean [msgToolUse, msgToolResult] ∧
    toolPairClean (TrimToLastN 1 [msgToolUse, msgToolResult]) :=
  ⟨by decide, trimToLastN_preserves_pairs 1 [msgToolUse, msgToolResult] (by decide)⟩

/-! ## C6: idempotence of ValidateAndClean -/

theorem vacGo_cons (last : Option ConversationMessage) (msg : ConversationMessage)
    (rest : List ConversationMessage) :
    vacGo last (msg :: rest) =
      if hasToolUse msg then
        match rest with
        | next :: _ =>
          if hasToolResult next then msg :: vacGo (some msg) rest else vacGo last rest
        | [] => []
      else if hasToolResult msg then
        match last with
        | some prev =>
          if hasToolUse prev then msg :: vacGo (some msg) rest else vacGo last rest
        | none => vacGo last rest
      else msg :: vacGo (some msg) rest := rfl

theorem vcleanRel_cons (last : Option ConversationMessage) (m : ConversationMessage)
    (rest : List ConversationMessage) :
    vcleanRel last (m :: rest) =
      if hasToolUse m then
        match rest with
        | r :: _ => hasToolResult r && vcleanRel (some m) rest
        | [] => false
      else if hasToolResult m then lastHasUse last && vcleanRel (some m) rest
      else vcleanRel (some m) rest := rfl

theorem vacGo_of_vclean :
    ∀ (l : List ConversationMessage) last, vcleanRel last l = true → vacGo last l = l := by
  intro l
  induction l with
  | nil => intro last _; rfl
  | cons msg rest ih =>
    intro last hv
    rw [vcleanRel_cons] at hv
    rw [vacGo_cons]
    by_cases hu : hasToolUse msg = true
    · cases rest with
      | nil => simp [hu] at hv
      | cons next t =>
        simp only [hu, if_true, Bool.and_eq_true] at hv
        simp only [hu, if_true, hv.1]
        rw [ih (some msg) hv.2]
    · rw [Bool.not_eq_true] at hu
      by_cases hr : hasToolResult msg = true
      · simp only [hu, Bool.false_eq_true, if_false, hr, if_true, Bool.and_eq_true] at hv
        cases hl : last with
        | none => rw [hl] at hv; simp [lastHasUse] at hv
        | some prev =>
          rw [hl] at hv
          have hp : hasToolUse prev = true := by simpa [lastHasUse] using hv.1
          simp only [hu, Bool.false_eq_true, if_false, hr, if_true, hp]
          rw [ih (some msg) hv.2]
      · rw [Bool.not_eq_true] at hr
        simp only [hu, Bool.false_eq_true, if_false, hr] at hv
        simp only [hu, Bool.false_eq_true, if_false, hr]
        rw [ih (some msg) hv]

theorem vclean_vacGo :
    ∀ (N : Nat) (l : List ConversationMessage) (last : Option ConversationMessage),
    l.length ≤ N → (∀ m ∈ l, ¬(hasToolUse m = true ∧ hasToolResult m = true)) →
    lastHasUse last = false → vcleanRel last (vacGo last l) = true := by
  intro N
  induction N with
  | zero =>
    intro l last hlen _ _
    have hl : l = [] := List.eq_nil_of_length_eq_zero (by omega)
    subst hl
    rfl
  | succ N ih =>
    intro l last hlen hnm hlast
    cases l with
    | nil => rfl
    | cons msg rest =>
      simp only [List.length_cons] at hlen
      rw [vacGo_cons]
      by_cases hu : hasToolUse msg = true
      · cases rest with
        | nil => simp [hu, vcleanRel]
        | cons next t =>
          by_cases hr : hasToolResult next = true
          · have hnu : hasToolUse next = false := by
              have := hnm next (by simp)
              cases hh : hasToolUse next
              · rfl
              · exact absurd ⟨hh, hr⟩ this
            have hstep : vacGo (some msg) (next :: t) = next :: vacGo (some next) t := by
              rw [vacGo_cons]
              simp [hnu, hr, lastHasUse, hu]
            simp only [hu, if_true, hr, hstep]
            have ihapp := ih t (some next) (by simp at hlen; omega)
              (fun m hm => hnm m (by simp [hm])) (by simp [lastHasUse, hnu])
            rw [vcleanRel_cons]
            simp only [hu, if_true, hr, Bool.true_and]
            rw [vcleanRel_cons]
            simp [hnu, hr, lastHasUse, hu, ihapp]
          · rw [Bool.not_eq_true] at hr
            simp only [hu, if_true, hr, Bool.false_eq_true, if_false]
            exact ih (next :: t) last (by simp at hlen ⊢; omega)
              (fun m hm => hnm m (by simp at hm ⊢; tauto)) hlast
      · rw [Bool.not_eq_true] at hu
        by_cases hr : hasToolResult msg = true
        · simp only [hu, Bool.false_eq_true, if_false, hr, if_true]
          cases last with
          | none =>
            exact ih rest none (by omega) (fun m hm => hnm m (by simp [hm])) hlast
          | some prev =>
            have hp : hasToolUse prev = false := by simpa [lastHasUse] using hlast
            simp only [hp, Bool.false_eq_true, if_false]
            exact ih rest (some prev) (by omega) (fun m hm => hnm m (by simp [hm])) hlast
        · rw [Bool.not_eq_true] at hr
          simp only [hu, Bool.false_eq_true, if_false, hr]
          have ihapp := ih rest (some msg) (by omega)
            (fun m hm => hnm m (by simp [hm])) (by simp [lastHasUse, hu])
          rw [vcleanRel_cons]
          simp [hu, hr, ihapp]

/-- C6 counterexample: `ValidateAndClean` is not idempotent on arbitrary
message lists: on `[tool_use, (tool_use ∧ tool_result)]` the first pass
keeps the first message (its successor carries a `tool_result` block) and
drops the second (it is checked as a trailing `tool_use`), and the second
pass then drops the now-unpaired first message as well. -/
theorem validateAndClean_idem_cex :
    ValidateAndClean (ValidateAndClean [msgToolUse, msgMixed]) ≠
      ValidateAndClean [msgToolUse, msgMixed] := by
  decide

/-- C6 amended: `ValidateAndClean` is idempotent on every message list in
which no single message carries both a `tool_use` and a `tool_result`
block — which holds for all messages the orchestration loop constructs
(assistant tool-call messages versus separate tool-result messages). -/
theorem validateAndClean_idem (ms : List ConversationMessage)
    (hnm : noMixedMessages ms) :
    ValidateAndClean (ValidateAndClean ms) = ValidateAndClean ms := by
  unfold ValidateAndClean
  apply vacGo_of_vclean
  exact vclean_vacGo ms.length ms none (le_refl ms.length) hnm rfl

/-- C6 amended witness: a concrete clean conversation with unmixed blocks
is a fixpoint of `ValidateAndClean`. -/
theorem validateAndClean_idem_witness :
    noMixedMessages [msgToolUse, msgToolResult, msgPlain] ∧
    ValidateAndClean (ValidateAndClean [msgToolUse, msgToolResult, msgPlain]) =
      ValidateAndClean [msgToolUse, msgToolResult, msgPlain] :=
  ⟨by decide, validateAndClean_idem [msgToolUse, msgToolResult, msgPlain] (by decide)⟩

/-! ## C7: key-name reinterpretation in type_text -/

/-- C7 counterexample: the code's `keyNames` map is an exact-string set,
not a case-insensitive match: `"TaB"` matches `Tab` case-insensitively
(so the claim demands a `key` action), yet `ExecuteTool` sends an `input`
action typing the literal text `"TaB"`.  (The set is also larger than the
claim's list: e.g. the abbreviation `"DEL"` *is* reinterpreted as a key.) -/
theorem typeText_key_reinterpretation_cex :
    specKeyMatch "TaB" = true ∧
    typeTextAction "TaB" = { zeroAction with type := "input", value := "TaB" } := by
  decide

/-- C7 amended: for a `type_text` tool call whose text is exactly one of the
21 strings of the code's `keyNames` set (the Title-case, lower-case and
upper-case spellings of Tab/Enter/Backspace, four spellings of
Escape/Delete including the `ESC`/`esc`/`DEL`/`del` abbreviations, and the
exact-case arrow-key names), `ExecuteTool` sends a `key` action carrying
that text; for every other text it sends an `input` action carrying the
text literally. -/
theorem typeText_key_reinterpretation (text : String) :
    (keyNames.contains text = true →
      typeTextAction text = { zeroAction with type := "key", key := text }) ∧
    (keyNames.contains text = false →
      typeTextAction text = { zeroAction with type := "input", value := text }) := by
  constructor <;> intro h <;> (unfold typeTextAction; rw [h]; simp)

/-- C7 amended witness: `"Enter"` is reinterpreted as a key press, and
`"hello"` is typed literally. -/
theorem typeText_key_reinterpretation_witness :
    (keyNames.contains "Enter" = true ∧
      typeTextAction "Enter" = { zeroAction with type := "key", key := "Enter" }) ∧
    (keyNames.contains "hello" = false ∧
      typeTextAction "hello" = { zeroAction with type := "input", value := "hello" }) :=
  ⟨⟨by decide, (typeText_key_reinterpretation "Enter").1 (by decide)⟩,
   ⟨by decide, (typeText_key_reinterpretation "hello").2 (by decide)⟩⟩

/-! ## C8: broadcast viewing gate -/

/-- C8: `BroadcastToAgentUsers(A, m)` enqueues `m` (non-blocking) on every
live connection of the agent's owning user exactly when that user's current
viewing assignment equals `A`; when the owner is viewing a different agent,
or the agent has no owning user, or the owner has no live connection (and
likewise when no such agent connection exists), the hub state is unchanged:
`m` is delivered to no one and is not buffered. -/
theorem broadcast_viewing_gate (h : HubState) (A m : Str) :
    (∀ ac conns, lookupA h.agents A = some ac → 0 < ac.userID →
      (lookupA h.userViewingAgent ac.userID).getD [] = A →
      lookupA h.users ac.userID = some conns →
      lookupA (BroadcastToAgentUsers h A m).users ac.userID =
        some (conns.map (fun q => if q.length < sendQueueCap then q ++ [m] else q))) ∧
    (∀ ac, lookupA h.agents A = some ac →
      (lookupA h.userViewingAgent ac.userID).getD [] ≠ A →
      BroadcastToAgentUsers h A m = h) ∧
    (∀ ac, lookupA h.agents A = some ac → ac.userID ≤ 0 →
      BroadcastToAgentUsers h A m = h) ∧
    (lookupA h.agents A = none → BroadcastToAgentUsers h A m = h) ∧
    (∀ ac, lookupA h.agents A = some ac → lookupA h.users ac.userID = none →
      BroadcastToAgentUsers h A m = h) := by
  refine ⟨?_, ?_, ?_, ?_, ?_⟩
  · intro ac conns hag hown hview hconns
    unfold BroadcastToAgentUsers
    rw [hag]
    simp only [hown, if_true, hview, if_pos rfl, hconns]
    show lookupA (setAssoc h.users ac.userID (deliverToConns conns m)) ac.userID = _
    rw [lookupA_setAssoc_self]
    unfold deliverToConns enqueueNB
    congr 1
    apply List.map_congr_left
    intro q _
    by_cases hq : q.length < sendQueueCap <;> simp [hq]
  · intro ac hag hview
    unfold BroadcastToAgentUsers
    rw [hag]
    by_cases hown : 0 < ac.userID
    · simp only [hown, if_true, if_neg hview]
    · simp only [if_neg hown]
  · intro ac hag hown
    unfold BroadcastToAgentUsers
    rw [hag]
    have : ¬(0 < ac.userID) := by omega
    simp only [if_neg this]
  · intro hag
    unfold BroadcastToAgentUsers
    rw [hag]
  · intro ac hag hconns
    unfold BroadcastToAgentUsers
    rw [hag]
    by_cases hown : 0 < ac.userID
    · by_cases hview : (lookupA h.userViewingAgent ac.userID).getD [] = A
      · simp only [hown, if_true, hview, if_pos rfl, hconns]
      · simp only [hown, if_true, if_neg hview]
    · simp only [if_neg hown]

/-- C8 witness: in `hubViewer` (owner user 1 viewing `"a"` with one empty
connection) the broadcast lands in the connection's queue, and in
`hubNonViewer` (user 1 viewing `"b"`) the state is unchanged. -/
theorem broadcast_viewing_gate_witness :
    lookupA (BroadcastToAgentUsers hubViewer ['a'] ['m']).users 1 = some [[['m']]] ∧
    BroadcastToAgentUsers hubNonViewer ['a'] ['m'] = hubNonViewer :=
  ⟨by
    have := (broadcast_viewing_gate hubViewer ['a'] ['m']).1 ⟨1, []⟩ [[]]
      (by decide) (by decide) (by decide) (by decide)
    rw [this]
    decide,
   by
    have := ((broadcast_viewing_gate hubNonViewer ['a'] ['m']).2.1) ⟨1, []⟩
      (by decide) (by decide)
    exact this⟩

/-! ## C9: orchestration loop iteration cap -/

theorem chatLoopGo_calls_le (respond : Nat → Except String ChatResp)
    (execFail : Nat → Bool) :
    ∀ r count, (chatLoopGo respond execFail count r).chatCalls ≤ count + r := by
  intro r
  induction r with
  | zero => intro count; simp [chatLoopGo]
  | succ r ih =>
    intro count
    unfold chatLoopGo
    cases respond count with
    | error e =>
      change count + 1 ≤ count + (r + 1)
      omega
    | ok resp =>
      by_cases hempty : resp.toolCalls.isEmpty = true
      · simp only [hempty, if_true]
        change count + 1 ≤ count + (r + 1)
        omega
      · rw [Bool.not_eq_true] at hempty
        by_cases hfail : execFail count = true
        · simp only [hempty, Bool.false_eq_true, if_false, hfail, if_true]
          change count + 1 ≤ count + (r + 1)
          omega
        · rw [Bool.not_eq_true] at hfail
          simp only [hempty, Bool.false_eq_true, if_false, hfail]
          have := ih (count + 1)
          omega

theorem chatLoopGo_all_tools (respond : Nat → Except String ChatResp)
    (execFail : Nat → Bool)
    (hall : ∀ k, ∃ resp, respond k = .ok resp ∧ resp.toolCalls ≠ [])
    (hexec : ∀ k, execFail k = false) :
    ∀ r count, chatLoopGo respond execFail count r = ⟨count + r, false, .capReached⟩ := by
  intro r
  induction r with
  | zero => intro count; simp [chatLoopGo]
  | succ r ih =>
    intro count
    obtain ⟨resp, hr, ht⟩ := hall count
    have hempty : resp.toolCalls.isEmpty = false := by
      cases hh : resp.toolCalls
      · exact absurd hh ht
      · simp [hh]
    unfold chatLoopGo
    rw [hr]
    simp only [hempty, Bool.false_eq_true, if_false, hexec count]
    rw [ih (count + 1)]
    have : count + 1 + r = count + (r + 1) := by omega
    rw [this]

/-- C9: the orchestration loop of `handleChatMessage` makes at most 10 LLM
calls for one chat message (whatever the LLM and the tool executor do), and
when every response carries tool calls and every tool execution succeeds it
stops silently after exactly the 10th iteration: the cap exit sends no
error chat response to the user. -/
theorem handleChatMessage_iteration_cap
    (respond : Nat → Except String ChatResp) (execFail : Nat → Bool)
    (hall : ∀ k, ∃ resp, respond k = .ok resp ∧ resp.toolCalls ≠ [])
    (hexec : ∀ k, execFail k = false) :
    handleChatMessageLoop respond execFail = ⟨10, false, .capReached⟩ ∧
    (∀ respond' execFail' : _,
      (handleChatMessageLoop respond' execFail').chatCalls ≤ maxIterations) := by
  constructor
  · unfold handleChatMessageLoop maxIterations
    rw [chatLoopGo_all_tools respond execFail hall hexec 10 0]
  · intro respond' execFail'
    unfold handleChatMessageLoop maxIterations
    have := chatLoopGo_calls_le respond' execFail' 10 0
    simpa using this

/-- C9 witness: a concrete LLM stub that always returns one tool call and a
tool executor that never fails stop at 10 calls with no error sent. -/
theorem handleChatMessage_iteration_cap_witness :
    handleChatMessageLoop (fun _ => .ok ⟨"", ["take_screenshot"]⟩) (fun _ => false) =
      ⟨10, false, .capReached⟩ :=
  (handleChatMessage_iteration_cap (fun _ => .ok ⟨"", ["take_screenshot"]⟩)
    (fun _ => false) (fun _ => ⟨⟨"", ["take_screenshot"]⟩, rfl, by simp⟩)
    (fun _ => rfl)).1

end WeekendChart
